import Mathlib

/-!
Verification development for the dns-subnet-client benchmark tool
(src/v1/main.go).  The Go program is shallowly embedded below:

* the IP-string handling of the Go standard library that `setupOptions`
  relies on (`net.ParseIP`, `IP.To4`) is embedded byte-for-byte over
  `List Char` / `List Nat`;
* `buildQuery` / `setupOptions` (message construction with the EDNS
  client-subnet option) are embedded as pure functions;
* the concurrent run (producer, worker pool, response pipeline,
  completion-detector loop, stats sampler) is embedded as explicit
  state-transition systems driven by environment events, one atomic
  step per Go statement or select case.

Counters are plain `Nat` (the Go `int` counters never go near 2^63 in a
run of M items), elapsed times and rates are `ℚ`.
-/

namespace DnsSubnetClient

/-! ### Go net package: dtoi / xtoi (net/parse.go) -/

/-- The `big` cutoff used by Go's `dtoi`/`xtoi` (0xFFFFFF). -/
def bigCutoff : Nat := 0xFFFFFF

def isDigit (c : Char) : Bool := '0' ≤ c && c ≤ '9'

/-- Worker for `dtoi`: `n` is the accumulator, `i` the number of
characters consumed so far.  Mirrors net/parse.go `dtoi`. -/
def dtoiGo : List Char → Nat → Nat → Nat × Nat × Bool
  | [], n, i => if i = 0 then (0, 0, false) else (n, i, true)
  | c :: rest, n, i =>
    if isDigit c then
      let n2 := n * 10 + (c.toNat - 48)
      if bigCutoff ≤ n2 then (bigCutoff, i, false)
      else dtoiGo rest n2 (i + 1)
    else if i = 0 then (0, 0, false) else (n, i, true)

/-- Go `dtoi`: decimal prefix of a string, returning
(value, characters consumed, ok). -/
def dtoi (s : List Char) : Nat × Nat × Bool := dtoiGo s 0 0

def hexVal (c : Char) : Option Nat :=
  if isDigit c then some (c.toNat - 48)
  else if 'a' ≤ c && c ≤ 'f' then some (c.toNat - 97 + 10)
  else if 'A' ≤ c && c ≤ 'F' then some (c.toNat - 65 + 10)
  else none

/-- Worker for `xtoi`.  Mirrors net/parse.go `xtoi` (on overflow Go
returns `0, i, false`). -/
def xtoiGo : List Char → Nat → Nat → Nat × Nat × Bool
  | [], n, i => if i = 0 then (0, 0, false) else (n, i, true)
  | c :: rest, n, i =>
    match hexVal c with
    | some v =>
      let n2 := n * 16 + v
      if bigCutoff ≤ n2 then (0, i, false)
      else xtoiGo rest n2 (i + 1)
    | none => if i = 0 then (0, 0, false) else (n, i, true)

/-- Go `xtoi`: hexadecimal prefix of a string. -/
def xtoi (s : List Char) : Nat × Nat × Bool := xtoiGo s 0 0

/-! ### Go net package: parseIPv4 / parseIPv6 / ParseIP / To4 (net/ip.go) -/

/-- One dotted-decimal field of an IPv4 literal: value ≤ 255 and no
non-zero component with a leading zero.  Returns the value and the
remaining characters. -/
def parseIPv4Field (s : List Char) : Option (Nat × List Char) :=
  let r := dtoi s
  if r.2.2 = false ∨ 255 < r.1 then none
  else if 1 < r.2.1 ∧ s.head? = some '0' then none
  else some (r.1, s.drop r.2.1)

/-- The loop of Go's `parseIPv4`: `k` fields left to read, `acc` the
bytes read so far (in reverse). -/
def parseIPv4Loop : Nat → List Char → List Nat → Option (List Nat)
  | 0, s, acc => if s = [] then some acc.reverse else none
  | k + 1, s, acc =>
    if s = [] then none
    else
      let afterDot : Option (List Char) :=
        if acc = [] then some s
        else match s with
             | '.' :: rest => some rest
             | _ => none
      match afterDot with
      | none => none
      | some s2 =>
        match parseIPv4Field s2 with
        | none => none
        | some nr => parseIPv4Loop k nr.2 (nr.1 :: acc)

/-- The 12-byte front that Go's `IPv4()` puts before the 4 address
bytes (the v4-in-v6 representation). -/
def v4MappedFront : List Nat := [0, 0, 0, 0, 0, 0, 0, 0, 0, 0, 0xff, 0xff]

/-- Go `parseIPv4`: a dotted-quad string to the 16-byte v4-in-v6 IP. -/
def parseIPv4 (s : List Char) : Option (List Nat) :=
  match parseIPv4Loop 4 s [] with
  | none => none
  | some p => some (v4MappedFront ++ p)

/-- The main loop of Go's `parseIPv6`.  `acc` holds the bytes produced
so far (`acc.length` is Go's `i`), `ell` the ellipsis position.
Returns the bytes, the ellipsis position and the unconsumed rest.
Fuel decreases on every recursive call; every call consumes at least
two characters, so `s.length + 1` fuel at the top level is ample. -/
def parseIPv6Loop : Nat → List Char → List Nat → Option Nat →
    Option (List Nat × Option Nat × List Char)
  | 0, _, _, _ => none
  | fuel + 1, s, acc, ell =>
    if 16 ≤ acc.length then some (acc, ell, s)
    else
      let r := xtoi s
      if r.2.2 = false ∨ 0xFFFF < r.1 then none
      else if (s.drop r.2.1).head? = some '.' then
        -- trailing embedded IPv4 group
        if ell = none ∧ acc.length ≠ 12 then none
        else if 16 < acc.length + 4 then none
        else match parseIPv4 s with
             | none => none
             | some ip4 => some (acc ++ ip4.drop 12, ell, [])
      else
        let acc2 := acc ++ [r.1 / 256, r.1 % 256]
        let s2 := s.drop r.2.1
        if s2 = [] then some (acc2, ell, [])
        else if s2.head? ≠ some ':' ∨ s2.length = 1 then none
        else
          let s3 := s2.tail
          if s3.head? = some ':' then
            if ell ≠ none then none
            else
              let s4 := s3.tail
              if s4 = [] then some (acc2, some acc2.length, [])
              else parseIPv6Loop fuel s4 acc2 (some acc2.length)
          else parseIPv6Loop fuel s3 acc2 ell

/-- The post-loop part of Go's `parseIPv6`: reject leftover input,
then expand the ellipsis (or reject a full address with one). -/
def parseIPv6Finish (s1 : List Char) (ell0 : Option Nat) : Option (List Nat) :=
  match parseIPv6Loop (s1.length + 1) s1 [] ell0 with
  | none => none
  | some (acc, ell, rest) =>
    if rest ≠ [] then none
    else if acc.length < 16 then
      match ell with
      | none => none
      | some e => some (acc.take e ++ List.replicate (16 - acc.length) 0 ++ acc.drop e)
    else if ell ≠ none then none
    else some acc

/-- Go `parseIPv6` (without the zone, which `splitHostZone` strips). -/
def parseIPv6 (s : List Char) : Option (List Nat) :=
  match s with
  | ':' :: ':' :: rest =>
    if rest = [] then some (List.replicate 16 0)
    else parseIPv6Finish rest (some 0)
  | _ => parseIPv6Finish s none

/-- Index of the last occurrence of `c`, as in Go's `last`. -/
def lastIndexOfChar (c : Char) (s : List Char) : Option Nat :=
  (List.range s.length).foldl
    (fun best i => if s.get? i = some c then some i else best) none

/-- Go `splitHostZone`, keeping only the host part: the zone starts
after the last percent sign (only when its index is positive). -/
def splitHostZone (s : List Char) : List Char :=
  match lastIndexOfChar '%' s with
  | some i => if 0 < i then s.take i else s
  | none => s

/-- First `.` or `:` in the string decides between the v4 and v6
parsers, as in the dispatch loop of Go's `net.ParseIP`. -/
def firstSpecial : List Char → Option Char
  | [] => none
  | c :: rest => if c = '.' ∨ c = ':' then some c else firstSpecial rest

/-- Go `net.ParseIP`: `none` models the `nil` IP. -/
def ParseIP (s : String) : Option (List Nat) :=
  match firstSpecial s.data with
  | some '.' => parseIPv4 s.data
  | some _ => parseIPv6 (splitHostZone s.data)
  | none => none

def isZeros (l : List Nat) : Bool := l.all (fun b => b = 0)

/-- Go `IP.To4`: the 4-byte form of an IP, `none` when the IP is `nil`
or a non-v4-mapped IPv6 address. -/
def To4 : Option (List Nat) → Option (List Nat)
  | none => none
  | some ip =>
    if ip.length = 4 then some ip
    else if ip.length = 16 ∧ isZeros (ip.take 10) ∧
            ip.get? 10 = some 0xff ∧ ip.get? 11 = some 0xff then
      some (ip.drop 12)
    else none

/-! ### miekg/dns message construction as used by buildQuery (main.go:166-209) -/

def TypeA : Nat := 1
def ClassINET : Nat := 1
def TypeOPT : Nat := 41
def EDNS0SUBNET : Nat := 8
def OpcodeQuery : Nat := 0
def RcodeSuccess : Nat := 0

/-- dns.IsFqdn: the name ends in a dot preceded by an even number of
backslashes. -/
def IsFqdn (s : String) : Bool :=
  match s.data.getLast? with
  | some '.' =>
    let s2 := s.data.dropLast
    let k := (s2.reverse.takeWhile (fun c => c = '\\')).length
    if k = s2.length then (s2.length + 1) % 2 ≠ 0 else (k + 1) % 2 ≠ 0
  | _ => false

/-- dns.Fqdn: append a trailing dot when the name is not already
fully qualified. -/
def Fqdn (s : String) : String := if IsFqdn s then s else s ++ "."

/-- The EDNS0 client-subnet option record (dns.EDNS0_SUBNET as filled
in by `setupOptions`); `address` is the Go `Address` field, which
`setupOptions` sets to `net.ParseIP(*client).To4()` (`none` = nil). -/
structure SubnetOption where
  code : Nat
  family : Nat
  sourceNetmask : Nat
  sourceScope : Nat
  address : Option (List Nat)
deriving DecidableEq, Repr

/-- The OPT pseudo-RR built by `setupOptions`. -/
structure OptRR where
  name : String
  rrtype : Nat
  options : List SubnetOption
deriving DecidableEq, Repr

structure Question where
  qname : String
  qtype : Nat
  qcls : Nat
deriving DecidableEq, Repr

/-- The parts of dns.Msg that `buildQuery` populates. -/
structure Msg where
  id : Nat
  recursionDesired : Bool
  opcode : Nat
  rcode : Nat
  question : List Question
  extra : List OptRR
deriving DecidableEq, Repr

/-- `setupOptions` (main.go:191-209): one OPT record carrying a single
client-subnet option; the address is the raw `To4` of the parsed
client string, family 1, netmask and scope 0. -/
def setupOptions (client : String) : OptRR :=
  { name := "."
  , rrtype := TypeOPT
  , options := [ { code := EDNS0SUBNET
                 , family := 1
                 , sourceNetmask := 0
                 , sourceScope := 0
                 , address := To4 (ParseIP client) } ] }

/-- `buildQuery` (main.go:166-189); `client` stands for the `*client`
flag read by the body. -/
def buildQuery (client : String) (id : Nat) (name : String)
    (qtype qcls : Nat) : Msg :=
  { id := id
  , recursionDesired := true
  , opcode := OpcodeQuery
  , rcode := RcodeSuccess
  , question := [ { qname := Fqdn name, qtype := qtype, qcls := qcls } ]
  , extra := if client ≠ "" then [setupOptions client] else [] }

/-- All client-subnet options carried anywhere in the additional
section of a message. -/
def subnetOptions (m : Msg) : List SubnetOption :=
  (m.extra.map OptRR.options).flatten.filter (fun e => e.code == EDNS0SUBNET)

def isFourByteAddr : Option (List Nat) → Bool
  | some a => a.length == 4
  | none => false

/-- The property claimed for a configured client: exactly one
client-subnet option, with a 4-byte address, family 1, zero netmask
and zero scope. -/
def carriesOneSubnet4 (m : Msg) : Bool :=
  match subnetOptions m with
  | [e] => isFourByteAddr e.address && e.family == 1 &&
           e.sourceNetmask == 0 && e.sourceScope == 0
  | _ => false

/-- `checkFlags` (main.go:211-224) exits iff the wordlist flag is
empty; the client flag is never inspected. -/
def checkFlagsExits (domainlist client : String) : Bool :=
  domainlist == ""

/-! ### The shared-counter run as an interleaved transition system

One transition per atomic action of the run (main.go:46-123).  The
producer goroutine increments `attempts` and enqueues (lines 74-79,
modelled as one event; the work queue has capacity `T`, line 49).  A
worker dequeues an item, performs the write attempt — whose outcome is
an environment input, since `WriteMsg` is a transport call — bumping
`fail` on error (lines 116-119), and then blocks sending its signal on
the unbuffered response pipe (line 120); the signal stays pending
until the collector receives it.  The collector, for each of its `M`
loop iterations, either consumes a pending signal and classifies the
`ReadMsg` result — again an environment input — (lines 88-97), or its
idle ticker fires and it closes the pipe (lines 98-101), after which
it never classifies again.  `failWrite` is a ghost counter recording
how many `fail` increments came from write errors. -/

structure RunParams where
  M : Nat
  T : Nat
deriving DecidableEq, Repr

inductive REv where
  | enq
  | write (ok : Bool)
  | read (ok : Bool)
  | timeout
deriving DecidableEq, Repr

structure RunSt where
  attempts : Nat
  dequeued : Nat
  pendingSig : Nat
  iters : Nat
  success : Nat
  fail : Nat
  failWrite : Nat
  timedOut : Bool
deriving DecidableEq, Repr

def initRun : RunSt :=
  { attempts := 0, dequeued := 0, pendingSig := 0, iters := 0
  , success := 0, fail := 0, failWrite := 0, timedOut := false }

def runStep (p : RunParams) (s : RunSt) : REv → Option RunSt
  | .enq =>
    -- producer: one item left to enqueue and room in the queue
    if s.attempts < p.M ∧ s.attempts - s.dequeued < p.T then
      some { s with attempts := s.attempts + 1 }
    else none
  | .write ok =>
    -- a free worker dequeues and attempts the write, then signals
    if s.dequeued < s.attempts ∧ s.pendingSig < p.T then
      some { s with dequeued := s.dequeued + 1
                  , pendingSig := s.pendingSig + 1
                  , fail := if ok then s.fail else s.fail + 1
                  , failWrite := if ok then s.failWrite else s.failWrite + 1 }
    else none
  | .read ok =>
    -- collector consumes a signal and classifies the read
    if 0 < s.pendingSig ∧ s.iters < p.M ∧ s.timedOut = false then
      some { s with pendingSig := s.pendingSig - 1
                  , iters := s.iters + 1
                  , success := if ok then s.success + 1 else s.success
                  , fail := if ok then s.fail else s.fail + 1 }
    else none
  | .timeout =>
    if s.iters < p.M ∧ s.timedOut = false then
      some { s with timedOut := true }
    else none

def runFrom (p : RunParams) (s : RunSt) (evs : List REv) : Option RunSt :=
  evs.foldlM (runStep p) s

/-- A run of the benchmark: the interleaving `evs` applied to the
zero-initialised counters (main.go:25-37). -/
def runTrace (p : RunParams) (evs : List REv) : Option RunSt :=
  runFrom p initRun evs

/-- Number of producer enqueue events in an interleaving. -/
def enqCount (evs : List REv) : Nat :=
  evs.countP (fun e => decide (e = REv.enq))

/-- The inductive invariant of the counter system: classifications
account for exactly `iters + failWrite` counter increments, pending
signals are dequeues not yet classified, dequeues never outrun the
producer, and write failures never outrun dequeues. -/
def RunInv (s : RunSt) : Prop :=
  s.success + s.fail = s.iters + s.failWrite ∧
  s.pendingSig + s.iters = s.dequeued ∧
  s.dequeued ≤ s.attempts ∧
  s.failWrite ≤ s.dequeued

/-! ### The worker body makeRequest (main.go:107-123)

A worker's sequential behaviour over the items it dequeues.  Each item
carries the fresh request id and the environment-chosen outcome of the
`WriteMsg` call.  The worker builds the query (line 109), attempts the
write, increments `fail` on error without retrying (lines 116-119),
and emits exactly one signal after every attempt (line 120). -/

structure WorkerSt where
  fail : Nat
  signals : Nat
  sent : List Msg
deriving DecidableEq, Repr

def processItem (client : String) (s : WorkerSt) (item : Nat × String × Bool) : WorkerSt :=
  { fail := if item.2.2 then s.fail else s.fail + 1
  , signals := s.signals + 1
  , sent := s.sent ++ [buildQuery client item.1 item.2.1 TypeA ClassINET] }

/-- The `for d := range domains` loop of `makeRequest`, over the items
this worker dequeues. -/
def makeRequest (client : String) (s : WorkerSt) (items : List (Nat × String × Bool)) : WorkerSt :=
  items.foldl (processItem client) s

def countWriteFailures (items : List (Nat × String × Bool)) : Nat :=
  items.countP (fun it => decide (it.2.2 = false))

/-! ### The completion-detector loop and the deferred cleanup
(main.go:58-61, 85-105)

The main loop runs `M` iterations.  Within an iteration, while the
pipe is open, the environment chooses the select outcome: a signal
arrives and the read is classified, or the 500 ms ticker fires, in
which case the code closes the pipe, sends on `done` (which has no
receiver when verbose mode is on, since `updateStats` was never
started — main.go:81-83) and executes a `break` that leaves only the
select, not the loop.  Once the pipe is closed, a further iteration
receives `nil` from the closed channel without waiting and
`response.ReadMsg()` dereferences the nil connection: a panic.  When
the loop index reaches `M`, `finalStats` prints the report and main
returns, running the deferred `close(pipe)` (line 60) — a second
close, hence a panic, if the timeout case already closed the pipe. -/

inductive CPhase where
  | running
  | panicked
  | deadlocked
  | finished
deriving DecidableEq, Repr

structure CSt where
  i : Nat
  success : Nat
  fail : Nat
  closes : Nat
  pipeClosed : Bool
  reportPrinted : Bool
  phase : CPhase
deriving DecidableEq, Repr

def initC : CSt :=
  { i := 0, success := 0, fail := 0, closes := 0
  , pipeClosed := false, reportPrinted := false, phase := .running }

inductive CEv where
  | sig (readOk : Bool)
  | timeout
deriving DecidableEq, Repr

/-- One select outcome of the loop body (main.go:87-102). -/
def collectorCase (verbose : Bool) (s : CSt) : CEv → CSt
  | .sig ok =>
    { s with i := s.i + 1
           , success := if ok then s.success + 1 else s.success
           , fail := if ok then s.fail else s.fail + 1 }
  | .timeout =>
    let s1 := { s with closes := s.closes + 1, pipeClosed := true }
    if verbose then { s1 with phase := .deadlocked }
    else { s1 with i := s.i + 1 }

/-- `finalStats()` followed by main's deferred `close(pipe)`. -/
def mainExit (s : CSt) : CSt :=
  let s1 := { s with reportPrinted := true }
  if s1.pipeClosed then
    { s1 with closes := s1.closes + 1, phase := .panicked }
  else
    { s1 with closes := s1.closes + 1, pipeClosed := true, phase := .finished }

/-- The terminal checks of the loop, applied once the modelled select
outcomes are exhausted: a finished loop index reaches `finalStats` and
the deferred closes; a closed pipe makes the next iteration receive
`nil` and panic in `ReadMsg`; otherwise the loop is still blocked in
an open select and the state is returned as is. -/
def collectorStop (M : Nat) (s : CSt) : CSt :=
  if s.phase ≠ CPhase.running then s
  else if M ≤ s.i then mainExit s
  else if s.pipeClosed then { s with phase := CPhase.panicked }
  else s

/-- The collector loop driven by a list of select outcomes. -/
def collectorRun (verbose : Bool) (M : Nat) : List CEv → CSt → CSt
  | [], s => collectorStop M s
  | e :: rest, s =>
    if s.phase ≠ CPhase.running then s
    else if M ≤ s.i then mainExit s
    else if s.pipeClosed then { s with phase := CPhase.panicked }
    else collectorRun verbose M rest (collectorCase verbose s e)

/-! ### The stats sampler updateStats (main.go:81-83, 125-140)

`updateStats` is started only when verbose mode is off (line 81).  On
each ticker fire it executes two separate statements: line 133 appends
the elapsed time to `timeValues`, then line 134 appends
`getStatAvg()` — which re-reads the clock — to `rateValues`.  The two
appends are distinct atomic steps (`midTick` is the program point
between them); the `default` select branch only redraws the
single-line display.  Both series start as `[0]` (main.go:39-42). -/

/-- The `successRate` computed inside `getStatAvg` (main.go:156-163). -/
def statRate (success : Nat) (runTime : ℚ) : ℚ := (success : ℚ) / runTime

/-- `getStatAvg` (main.go:156-164): first component is the updated
`avgRate` accumulator, second the returned rate. -/
def getStatAvg (avgRate : ℚ) (success : Nat) (runTime : ℚ) : ℚ × ℚ :=
  (avgRate + statRate success runTime, statRate success runTime)

structure Series where
  timeValues : List ℚ
  rateValues : List ℚ
deriving DecidableEq, Repr

/-- main.go:39-42: `rateValues = []float64{0}`, `timeValues = []float64{0}`. -/
def initSeries : Series := { timeValues := [0], rateValues := [0] }

inductive SPhase where
  | idle
  | midTick
deriving DecidableEq, Repr

structure SamplerSt where
  series : Series
  sphase : SPhase
deriving DecidableEq, Repr

def initSampler : SamplerSt := { series := initSeries, sphase := .idle }

inductive SEv where
  | tickTime (elapsed : ℚ)
  | tickRate (elapsed2 : ℚ) (success : Nat)
  | redraw
deriving DecidableEq, Repr

/-- One statement-level step of `updateStats`: line 133, line 134, or
the default-branch redraw (line 136). -/
def updateStatsStep (s : SamplerSt) : SEv → Option SamplerSt
  | .tickTime t =>
    if s.sphase = SPhase.idle then
      some { series := { timeValues := s.series.timeValues ++ [t]
                       , rateValues := s.series.rateValues }
           , sphase := .midTick }
    else none
  | .tickRate t n =>
    if s.sphase = SPhase.midTick then
      some { series := { timeValues := s.series.timeValues
                       , rateValues := s.series.rateValues ++ [(getStatAvg 0 n t).2] }
           , sphase := .idle }
    else none
  | .redraw => if s.sphase = SPhase.idle then some s else none

def samplerFrom (s : SamplerSt) (evs : List SEv) : Option SamplerSt :=
  evs.foldlM updateStatsStep s

/-- A run of the sampler goroutine from the initial series. -/
def samplerRun (evs : List SEv) : Option SamplerSt :=
  samplerFrom initSampler evs

/-- main.go:81-83: the sampler exists only when verbose is off; in a
verbose run the series never change from their initial value. -/
def samplerSeries (verbose : Bool) (evs : List SEv) : Option SamplerSt :=
  if verbose then some initSampler else samplerRun evs

/-- The elapsed-time samples an event list would append (the argument
of each line-133 step). -/
def tickTimesOf (evs : List SEv) : List ℚ :=
  evs.filterMap (fun e => match e with
    | .tickTime t => some t
    | _ => none)

/-- The ticker fires of a full sampler run: each fire contributes a
line-133 step and a line-134 step (with its own clock read). -/
def tickEvents (ts : List (ℚ × ℚ × Nat)) : List SEv :=
  ts.flatMap (fun t => [SEv.tickTime t.1, SEv.tickRate t.2.1 t.2.2])

/-- Length relation between the two series at each program point of
the sampler: equal between iterations, time one ahead between the two
appends of a tick. -/
def samplerLenInv (s : SamplerSt) : Prop :=
  (s.sphase = SPhase.idle →
    s.series.timeValues.length = s.series.rateValues.length) ∧
  (s.sphase = SPhase.midTick →
    s.series.timeValues.length = s.series.rateValues.length + 1)

/-- `finalStats` (main.go:142-154): the printed summary tuple
(attempts, success, fail, avg rate, elapsed).  The average rate is
`getStatAvg()` evaluated at print time; the printed elapsed time comes
from a second, later clock read `elapsed2`. -/
def finalStats (attempts success fail : Nat) (avgRate : ℚ)
    (elapsed elapsed2 : ℚ) : Nat × Nat × Nat × ℚ × ℚ :=
  (attempts, success, fail, (getStatAvg avgRate success elapsed).2, elapsed2)

/-! ## Helper lemmas -/

/-- Whenever `To4` succeeds it produces exactly 4 bytes. -/
theorem To4_length {x : Option (List Nat)} {a : List Nat}
    (h : To4 x = some a) : a.length = 4 := by
  cases x with
  | none => simp [To4] at h
  | some ip =>
    simp only [To4] at h
    by_cases h4 : ip.length = 4
    · rw [if_pos h4] at h
      injection h with h
      subst h
      exact h4
    · rw [if_neg h4] at h
      by_cases h16 : ip.length = 16 ∧ isZeros (ip.take 10) ∧
          ip.get? 10 = some 0xff ∧ ip.get? 11 = some 0xff
      · rw [if_pos h16] at h
        injection h with h
        subst h
        simp [h16.1]
      · rw [if_neg h16] at h
        exact Option.noConfusion h

/-- With a configured client the additional section carries exactly
the one option that `setupOptions` builds. -/
theorem subnetOptions_buildQuery {client : String} (h : client ≠ "")
    (id : Nat) (name : String) (qtype qcls : Nat) :
    subnetOptions (buildQuery client id name qtype qcls) =
      [{ code := EDNS0SUBNET, family := 1, sourceNetmask := 0
       , sourceScope := 0, address := To4 (ParseIP client) }] := by
  simp [subnetOptions, buildQuery, setupOptions, if_pos h, EDNS0SUBNET]

/-! ## Claim C3 -/

/-- Claim C3 counterexample: the client value "invalid" is a
configured (non-empty) client string, yet the built query does not
carry a subnet option with a 4-byte address — `net.ParseIP` fails, so
the attached option's address is nil. -/
theorem buildQuery_subnet_counterexample :
    ("invalid" : String) ≠ "" ∧
    carriesOneSubnet4 (buildQuery "invalid" 7 "example.com" TypeA ClassINET) = false := by
  constructor
  · decide
  · rfl

/-- Claim C3 (amended): with no client value configured the message
carries no subnet option; with a configured client value whose
parse-and-To4 succeeds (in particular any valid dotted-quad IPv4
string), the message carries exactly one EDNS client-subnet option
with a 4-byte address, family 1, source netmask 0 and source scope
0. -/
theorem buildQuery_subnet_option (client : String) (id : Nat) (name : String)
    (qtype qcls : Nat) :
    (client = "" → subnetOptions (buildQuery client id name qtype qcls) = []) ∧
    (client ≠ "" → ∀ a, To4 (ParseIP client) = some a →
      carriesOneSubnet4 (buildQuery client id name qtype qcls) = true) := by
  constructor
  · intro h
    subst h
    rfl
  · intro h a ha
    have h4 : a.length = 4 := To4_length ha
    rw [carriesOneSubnet4, subnetOptions_buildQuery h, ha]
    simp [isFourByteAddr, h4]

/-- Witness for the amended C3 at concrete inputs: a configured valid
IPv4 client string yields the single well-formed subnet option, and an
empty client yields none. -/
theorem buildQuery_subnet_option_witness :
    carriesOneSubnet4 (buildQuery "1.2.3.4" 7 "www.example.com" TypeA ClassINET) = true ∧
    subnetOptions (buildQuery "" 7 "www.example.com" TypeA ClassINET) = [] :=
  ⟨(buildQuery_subnet_option "1.2.3.4" 7 "www.example.com" TypeA ClassINET).2
      (by decide) [1, 2, 3, 4] (by decide),
   (buildQuery_subnet_option "" 7 "www.example.com" TypeA ClassINET).1 rfl⟩

/-! ## Claim C10 -/

/-- Claim C10: a non-empty client string is attached without any
validation.  When `net.ParseIP(client).To4()` fails (an arbitrary
string, or a non-v4-mapped IPv6 address), the query still carries
exactly one subnet option, with family 1, zero netmask and scope and a
nil address; and `checkFlags` exits only on an empty wordlist flag,
never because of the client flag. -/
theorem setupOptions_no_validation (client : String) (id : Nat) (name : String)
    (qtype qcls : Nat) (hne : client ≠ "")
    (hto4 : To4 (ParseIP client) = none) :
    subnetOptions (buildQuery client id name qtype qcls) =
      [{ code := EDNS0SUBNET, family := 1, sourceNetmask := 0
       , sourceScope := 0, address := none }] ∧
    (∀ dl : String, checkFlagsExits dl client = (dl == "")) := by
  constructor
  · rw [subnetOptions_buildQuery hne, hto4]
  · intro dl
    rfl

/-- Witness for C10 at concrete inputs: the IPv6 client string
"2001:db8::1" parses but has no 4-byte form, and the arbitrary string
"not-an-ip" does not parse at all; both still get an option attached,
with a nil address, and neither makes `checkFlags` exit. -/
theorem setupOptions_no_validation_witness :
    subnetOptions (buildQuery "2001:db8::1" 3 "example.com" TypeA ClassINET) =
      [{ code := EDNS0SUBNET, family := 1, sourceNetmask := 0
       , sourceScope := 0, address := none }] ∧
    subnetOptions (buildQuery "not-an-ip" 3 "example.com" TypeA ClassINET) =
      [{ code := EDNS0SUBNET, family := 1, sourceNetmask := 0
       , sourceScope := 0, address := none }] ∧
    checkFlagsExits "words.txt" "2001:db8::1" = false :=
  ⟨(setupOptions_no_validation "2001:db8::1" 3 "example.com" TypeA ClassINET
      (by decide) (by decide)).1,
   (setupOptions_no_validation "not-an-ip" 3 "example.com" TypeA ClassINET
      (by decide) (by decide)).1,
   rfl⟩

/-! ## Claim C6 -/

/-- Claim C6: the average rate in the final report is
`getStatAvg()` evaluated on the counter values at the instant of the
final read, i.e. `success / elapsed_seconds`; it is the very same
cumulative-since-start quotient the sampler records at the same state,
whatever the accumulated `avgRate` global happens to be on either
side. -/
theorem finalStats_avgRate_idempotent (attempts success fail : Nat)
    (avgRate avgRate2 : ℚ) (elapsed elapsed2 : ℚ) :
    (finalStats attempts success fail avgRate elapsed elapsed2).2.2.2.1 =
      statRate success elapsed ∧
    (finalStats attempts success fail avgRate elapsed elapsed2).2.2.2.1 =
      (getStatAvg avgRate2 success elapsed).2 ∧
    statRate success elapsed = (success : ℚ) / elapsed :=
  ⟨rfl, rfl, rfl⟩

/-! ## Claim C7 -/

/-- Claim C7: over any list of dequeued items with any write outcomes,
the worker performs exactly one query build and write attempt per item
(no retry, no stopping), increments `fail` exactly once per failed
write, and emits exactly one response-pipeline signal per item —
whether the write succeeded or failed. -/
theorem makeRequest_per_item (client : String)
    (items : List (Nat × String × Bool)) (s : WorkerSt) :
    (makeRequest client s items).signals = s.signals + items.length ∧
    (makeRequest client s items).fail = s.fail + countWriteFailures items ∧
    (makeRequest client s items).sent.length = s.sent.length + items.length := by
  induction items generalizing s with
  | nil => simp [makeRequest, countWriteFailures]
  | cons it rest ih =>
    have hstep : makeRequest client s (it :: rest) =
        makeRequest client (processItem client s it) rest := by
      simp [makeRequest]
    obtain ⟨h1, h2, h3⟩ := ih (processItem client s it)
    rw [hstep]
    refine ⟨?_, ?_, ?_⟩
    · rw [h1]
      simp [processItem]
      omega
    · rw [h2]
      simp only [countWriteFailures, List.countP_cons]
      by_cases hit : it.2.2
      · simp [processItem, hit, countWriteFailures]
      · simp [processItem, hit, countWriteFailures]
        omega
    · rw [h3]
      simp [processItem]
      omega

/-! ## Sampler lemmas (for C4 and C9) -/

/-- Each ticker fire appends exactly one elapsed-time sample and one
rate sample and returns the sampler to its between-iterations
state. -/
theorem samplerFrom_tickEvents (ts : List (ℚ × ℚ × Nat)) :
    ∀ s : SamplerSt, s.sphase = SPhase.idle →
    ∃ s2, samplerFrom s (tickEvents ts) = some s2 ∧
      s2.sphase = SPhase.idle ∧
      s2.series.timeValues.length = s.series.timeValues.length + ts.length ∧
      s2.series.rateValues.length = s.series.rateValues.length + ts.length := by
  induction ts with
  | nil =>
    intro s hs
    exact ⟨s, rfl, hs, by simp [tickEvents], by simp [tickEvents]⟩
  | cons t rest ih =>
    intro s hs
    obtain ⟨s2, hrun, hidle, hlt, hlr⟩ := ih
      { series := { timeValues := s.series.timeValues ++ [t.1]
                  , rateValues := s.series.rateValues ++ [(getStatAvg 0 t.2.2 t.2.1).2] }
      , sphase := .idle } rfl
    have hsplit : tickEvents (t :: rest) =
        SEv.tickTime t.1 :: SEv.tickRate t.2.1 t.2.2 :: tickEvents rest := by
      simp [tickEvents]
    have h1 : updateStatsStep s (SEv.tickTime t.1) =
        some { series := { timeValues := s.series.timeValues ++ [t.1]
                         , rateValues := s.series.rateValues }
             , sphase := .midTick } := by
      simp [updateStatsStep, hs]
    have h2 : updateStatsStep
        { series := { timeValues := s.series.timeValues ++ [t.1]
                    , rateValues := s.series.rateValues }
        , sphase := SPhase.midTick } (SEv.tickRate t.2.1 t.2.2) =
        some { series := { timeValues := s.series.timeValues ++ [t.1]
                         , rateValues := s.series.rateValues ++ [(getStatAvg 0 t.2.2 t.2.1).2] }
             , sphase := .idle } := by
      simp [updateStatsStep]
    refine ⟨s2, ?_, hidle, ?_, ?_⟩
    · rw [hsplit]
      simp only [samplerFrom, List.foldlM_cons, h1, Option.some_bind, h2]
      simpa [samplerFrom] using hrun
    · simp at hlt ⊢
      omega
    · simp at hlr ⊢
      omega

/-- The time series after a sampler run is the initial time series
followed by the line-133 appends, in order. -/
theorem samplerFrom_timeValues (evs : List SEv) :
    ∀ s s2 : SamplerSt, samplerFrom s evs = some s2 →
    s2.series.timeValues = s.series.timeValues ++ tickTimesOf evs := by
  induction evs with
  | nil =>
    intro s s2 h
    simp only [samplerFrom, List.foldlM_nil, Option.pure_def, Option.some.injEq] at h
    subst h
    simp [tickTimesOf]
  | cons e rest ih =>
    intro s s2 h
    simp only [samplerFrom, List.foldlM_cons] at h
    obtain ⟨s1, hstep, hrest⟩ := Option.bind_eq_some.mp h
    have htail := ih s1 s2 hrest
    cases e with
    | tickTime t =>
      simp only [updateStatsStep] at hstep
      split at hstep
      · injection hstep with hstep
        subst hstep
        simp only [tickTimesOf, List.filterMap_cons] at htail ⊢
        rw [htail]
        simp
      · exact Option.noConfusion hstep
    | tickRate t n =>
      simp only [updateStatsStep] at hstep
      split at hstep
      · injection hstep with hstep
        subst hstep
        simpa [tickTimesOf] using htail
      · exact Option.noConfusion hstep
    | redraw =>
      simp only [updateStatsStep] at hstep
      split at hstep
      · injection hstep with hstep
        subst hstep
        simpa [tickTimesOf] using htail
      · exact Option.noConfusion hstep

/-- Single-statement steps of `updateStats` preserve the length
relation between the series. -/
theorem updateStatsStep_lenInv {s s2 : SamplerSt} {e : SEv}
    (h : updateStatsStep s e = some s2) (hs : samplerLenInv s) :
    samplerLenInv s2 := by
  obtain ⟨hidle, hmid⟩ := hs
  cases e with
  | tickTime t =>
    simp only [updateStatsStep] at h
    split at h
    next hc =>
      injection h with h
      subst h
      refine ⟨fun hph => by simp at hph, fun _ => ?_⟩
      simp [hidle hc]
    next => exact Option.noConfusion h
  | tickRate t n =>
    simp only [updateStatsStep] at h
    split at h
    next hc =>
      injection h with h
      subst h
      refine ⟨fun _ => ?_, fun hph => by simp at hph⟩
      simp [hmid hc]
    next => exact Option.noConfusion h
  | redraw =>
    simp only [updateStatsStep] at h
    split at h
    next =>
      injection h with h
      subst h
      exact ⟨hidle, hmid⟩
    next => exact Option.noConfusion h

/-- The length relation holds after any valid sampler run prefix. -/
theorem samplerFrom_lenInv (evs : List SEv) :
    ∀ s s2 : SamplerSt, samplerFrom s evs = some s2 →
    samplerLenInv s → samplerLenInv s2 := by
  induction evs with
  | nil =>
    intro s s2 h hs
    simp only [samplerFrom, List.foldlM_nil, Option.pure_def, Option.some.injEq] at h
    subst h
    exact hs
  | cons e rest ih =>
    intro s s2 h hs
    simp only [samplerFrom, List.foldlM_cons] at h
    obtain ⟨s1, hstep, hrest⟩ := Option.bind_eq_some.mp h
    exact ih s1 s2 hrest (updateStatsStep_lenInv hstep hs)

/-! ## Claim C4 -/

/-- Claim C4 counterexample: directly after the line-133 append (a
reachable program point of every tick, observable because the final
report reads the series while the sampler still runs on the drain
path), TimeSeries has one more element than RateSeries — the lengths
are not equal at every point of the run. -/
theorem series_lengths_counterexample :
    samplerRun [SEv.tickTime (1/2)] =
      some { series := { timeValues := [0, 1/2], rateValues := [0] }
           , sphase := .midTick } ∧
    ¬ (({ series := { timeValues := [0, 1/2], rateValues := [0] }
        , sphase := .midTick } : SamplerSt).series.timeValues.length =
       ({ series := { timeValues := [0, 1/2], rateValues := [0] }
        , sphase := .midTick } : SamplerSt).series.rateValues.length) := by
  constructor
  · rfl
  · decide

/-- Claim C4 (amended): at every point of every sampler run,
RateSeries is never longer than TimeSeries and TimeSeries is at most
one element ahead; the lengths are equal at every point outside the
two-statement tick body (whenever the sampler is between iterations);
and, provided the clock reads handed to successive ticks are
non-decreasing, the TimeSeries values are non-decreasing. -/
theorem series_parallel_amended (evs : List SEv) (s : SamplerSt)
    (h : samplerRun evs = some s) :
    (s.series.rateValues.length ≤ s.series.timeValues.length ∧
      s.series.timeValues.length ≤ s.series.rateValues.length + 1) ∧
    (s.sphase = SPhase.idle →
      s.series.timeValues.length = s.series.rateValues.length) ∧
    (List.Chain' (fun a b => a ≤ b) (0 :: tickTimesOf evs) →
      List.Chain' (fun a b => a ≤ b) s.series.timeValues) := by
  have hinv := samplerFrom_lenInv evs initSampler s h
    ⟨fun _ => rfl, fun hph => by simp [initSampler] at hph⟩
  have htv : s.series.timeValues = 0 :: tickTimesOf evs := by
    simpa [initSampler, initSeries] using samplerFrom_timeValues evs initSampler s h
  refine ⟨?_, hinv.1, ?_⟩
  · cases hph : s.sphase with
    | idle => rw [hinv.1 hph]; omega
    | midTick => rw [hinv.2 hph]; omega
  · intro hchain
    rw [htv]
    exact hchain

/-- Witness for the amended C4 after one full tick: lengths equal (the
sampler is between iterations) and the time values are
non-decreasing. -/
theorem series_parallel_amended_witness :
    ({ series := { timeValues := [0, 1/2], rateValues := [0, 10/3] }
     , sphase := .idle } : SamplerSt).series.timeValues.length =
      ({ series := { timeValues := [0, 1/2], rateValues := [0, 10/3] }
       , sphase := .idle } : SamplerSt).series.rateValues.length ∧
    List.Chain' (fun a b => a ≤ b)
      ({ series := { timeValues := [0, 1/2], rateValues := [0, 10/3] }
       , sphase := .idle } : SamplerSt).series.timeValues := by
  have h := series_parallel_amended
    [SEv.tickTime (1/2), SEv.tickRate (3/5) 2]
    { series := { timeValues := [0, 1/2], rateValues := [0, 10/3] }
    , sphase := .idle }
    (by norm_num [samplerRun, samplerFrom, updateStatsStep, getStatAvg,
          statRate, initSampler, initSeries])
  exact ⟨h.2.1 rfl,
    h.2.2 (by norm_num [tickTimesOf, List.filterMap_cons, List.chain'_cons])⟩

/-! ## Claim C9 -/

/-- Claim C9 counterexample: in a verbose run the sampler goroutine is
never started (main.go:81-83), so even as ticker intervals elapse
nothing is appended — the series stay at their initial `[0]` — while
the same events in a non-verbose run do append samples.  Recording is
conditional on non-verbose mode, not just the live display. -/
theorem updateStats_not_started_counterexample :
    samplerSeries true [SEv.tickTime (1/2), SEv.tickRate (1/2) 5] =
      some initSampler ∧
    initSampler.series.timeValues.length = 1 ∧
    samplerSeries false [SEv.tickTime (1/2), SEv.tickRate (1/2) 5] =
      some { series := { timeValues := [0, 1/2], rateValues := [0, 10] }
           , sphase := .idle } := by
  refine ⟨rfl, rfl, ?_⟩
  norm_num [samplerSeries, samplerRun, samplerFrom, updateStatsStep,
    getStatAvg, statRate, initSampler, initSeries]

/-- Claim C9 (amended): the Stats Sampler runs only when verbose mode
is disabled.  In a non-verbose run every 500 ms tick appends one
cumulative-rate sample and one elapsed-time sample (after `n` ticks
both series have `n + 1` entries); in a verbose run neither sampling
nor the live display happens and the series keep their initial
value. -/
theorem updateStats_gated_by_verbose (ts : List (ℚ × ℚ × Nat)) :
    samplerSeries true (tickEvents ts) = some initSampler ∧
    ∃ s, samplerSeries false (tickEvents ts) = some s ∧
      s.sphase = SPhase.idle ∧
      s.series.timeValues.length = ts.length + 1 ∧
      s.series.rateValues.length = ts.length + 1 := by
  refine ⟨rfl, ?_⟩
  obtain ⟨s2, hrun, hidle, hlt, hlr⟩ := samplerFrom_tickEvents ts initSampler rfl
  refine ⟨s2, ?_, hidle, ?_, ?_⟩
  · simpa [samplerSeries, samplerRun] using hrun
  · simp [initSampler, initSeries] at hlt
    omega
  · simp [initSampler, initSeries] at hlr
    omega

/-! ## Claim C1 -/

/-- Claim C1 (code bug): the first idle timeout does not exit the main
loop — the `break` in the select case only leaves the select.  In a
non-verbose run with two work items whose ticker fires in the first
iteration, the loop re-enters, receives nil from the now-closed pipe
and panics inside `ReadMsg`, and the final report is never printed; in
a verbose run `done <- true` has no receiver (the sampler was never
started) and the run deadlocks before even leaving the select. -/
theorem timeout_not_terminal_bug :
    collectorRun false 2 [CEv.timeout] initC =
      { i := 1, success := 0, fail := 0, closes := 1, pipeClosed := true
      , reportPrinted := false, phase := .panicked } ∧
    collectorRun true 2 [CEv.timeout] initC =
      { i := 0, success := 0, fail := 0, closes := 1, pipeClosed := true
      , reportPrinted := false, phase := .deadlocked } := by
  constructor
  · rfl
  · rfl

/-! ## Claim C8 -/

/-- Claim C8 counterexample: in the run with a single work item whose
only iteration times out, the select case closes the pipe (line 99)
and, after the loop exits and `finalStats` prints, main's deferred
`close(pipe)` (line 60) closes it a second time — two closes in one
run (the second one a close-of-closed panic). -/
theorem pipe_closed_twice_counterexample :
    (collectorRun false 1 [CEv.timeout] initC).closes = 2 ∧
    (collectorRun false 1 [CEv.timeout] initC).reportPrinted = true ∧
    (collectorRun false 1 [CEv.timeout] initC).phase = CPhase.panicked :=
  ⟨rfl, rfl, rfl⟩

/-- In a run whose select outcomes are all signal arrivals, one per
expected response, the collector classifies every response, prints the
report and performs exactly one close — the deferred one. -/
theorem collectorRun_no_timeout (verbose : Bool) (M : Nat) :
    ∀ (evs : List CEv) (s : CSt), (∀ e ∈ evs, e ≠ CEv.timeout) →
    s.phase = CPhase.running → s.pipeClosed = false →
    s.i + evs.length = M →
    (collectorRun verbose M evs s).closes = s.closes + 1 ∧
    (collectorRun verbose M evs s).phase = CPhase.finished ∧
    (collectorRun verbose M evs s).reportPrinted = true := by
  intro evs
  induction evs with
  | nil =>
    intro s hnt hph hpipe hi
    have hM : M ≤ s.i := by simp at hi; omega
    simp [collectorRun, collectorStop, hph, hpipe, hM, mainExit]
  | cons e rest ih =>
    intro s hnt hph hpipe hi
    have hM : ¬ (M ≤ s.i) := by simp at hi; omega
    cases e with
    | sig ok =>
      have hrec := ih (collectorCase verbose s (CEv.sig ok))
        (fun x hx => hnt x (List.mem_cons_of_mem _ hx))
        (by simp [collectorCase, hph])
        (by simp [collectorCase, hpipe])
        (by simp [collectorCase]; simp at hi; omega)
      rw [show collectorRun verbose M (CEv.sig ok :: rest) s =
            collectorRun verbose M rest (collectorCase verbose s (CEv.sig ok)) by
        simp [collectorRun, hph, hpipe, hM]]
      refine ⟨?_, hrec.2.1, hrec.2.2⟩
      rw [hrec.1]
      simp [collectorCase]
    | timeout =>
      exact absurd rfl (hnt CEv.timeout (List.mem_cons_self _ _))

/-- Claim C8 (amended): the pipe is closed exactly once only in runs
in which the idle timeout never fires (and, beyond this model, only as
long as no worker observes the closed work queue before the process
exits): there the single close is the deferred cleanup, after the
report.  When the timeout fires the run closes the pipe twice — the
select case and the deferred cleanup (see the counterexample). -/
theorem pipe_close_amended (verbose : Bool) (M : Nat) (evs : List CEv)
    (hnt : ∀ e ∈ evs, e ≠ CEv.timeout) (hlen : evs.length = M) :
    (collectorRun verbose M evs initC).closes = 1 ∧
    (collectorRun verbose M evs initC).phase = CPhase.finished ∧
    (collectorRun verbose M evs initC).reportPrinted = true := by
  have h := collectorRun_no_timeout verbose M evs initC hnt rfl rfl
    (by simp [initC, hlen])
  simpa [initC] using h

/-- Witness for the amended C8: a drained two-item run closes the pipe
exactly once and reaches the report. -/
theorem pipe_close_amended_witness :
    (collectorRun false 2 [CEv.sig true, CEv.sig false] initC).closes = 1 ∧
    (collectorRun false 2 [CEv.sig true, CEv.sig false] initC).phase =
      CPhase.finished ∧
    (collectorRun false 2 [CEv.sig true, CEv.sig false] initC).reportPrinted =
      true :=
  pipe_close_amended false 2 [CEv.sig true, CEv.sig false] (by decide) rfl

/-! ## Counter-system lemmas (for C2 and C5) -/

/-- Every transition of the counter system preserves the inductive
invariant. -/
theorem runStep_inv (p : RunParams) {s s2 : RunSt} {e : REv}
    (h : runStep p s e = some s2) (hs : RunInv s) : RunInv s2 := by
  obtain ⟨h1, h2, h3, h4⟩ := hs
  cases e with
  | enq =>
    simp only [runStep] at h
    split at h
    next hc =>
      injection h with h
      subst h
      refine ⟨?_, ?_, ?_, ?_⟩ <;> simp <;> omega
    next => exact Option.noConfusion h
  | write ok =>
    simp only [runStep] at h
    split at h
    next hc =>
      injection h with h
      subst h
      obtain ⟨hc1, hc2⟩ := hc
      cases ok <;> (refine ⟨?_, ?_, ?_, ?_⟩ <;> simp <;> omega)
    next => exact Option.noConfusion h
  | read ok =>
    simp only [runStep] at h
    split at h
    next hc =>
      injection h with h
      subst h
      obtain ⟨hc1, hc2, hc3⟩ := hc
      cases ok <;> (refine ⟨?_, ?_, ?_, ?_⟩ <;> simp <;> omega)
    next => exact Option.noConfusion h
  | timeout =>
    simp only [runStep] at h
    split at h
    next hc =>
      injection h with h
      subst h
      exact ⟨h1, h2, h3, h4⟩
    next => exact Option.noConfusion h

/-- The invariant holds after any valid interleaving prefix. -/
theorem runFrom_inv (p : RunParams) (evs : List REv) :
    ∀ s s2 : RunSt, runFrom p s evs = some s2 → RunInv s → RunInv s2 := by
  induction evs with
  | nil =>
    intro s s2 h hs
    simp only [runFrom, List.foldlM_nil, Option.pure_def, Option.some.injEq] at h
    subst h
    exact hs
  | cons e rest ih =>
    intro s s2 h hs
    simp only [runFrom, List.foldlM_cons] at h
    obtain ⟨s1, hstep, hrest⟩ := Option.bind_eq_some.mp h
    exact ih s1 s2 hrest (runStep_inv p hstep hs)

/-- Only the producer's enqueue transition touches `attempts`, and it
adds exactly one. -/
theorem runStep_attempts (p : RunParams) {s s2 : RunSt} {e : REv}
    (h : runStep p s e = some s2) :
    s2.attempts = s.attempts + (if e = REv.enq then 1 else 0) := by
  cases e <;> simp only [runStep] at h <;> split at h <;>
    first
    | (injection h with h; subst h; simp)
    | exact Option.noConfusion h

/-- `attempts` counts exactly the enqueue events of the
interleaving. -/
theorem runFrom_attempts (p : RunParams) (evs : List REv) :
    ∀ s s2 : RunSt, runFrom p s evs = some s2 →
    s2.attempts = s.attempts + enqCount evs := by
  induction evs with
  | nil =>
    intro s s2 h
    simp only [runFrom, List.foldlM_nil, Option.pure_def, Option.some.injEq] at h
    subst h
    simp [enqCount]
  | cons e rest ih =>
    intro s s2 h
    simp only [runFrom, List.foldlM_cons] at h
    obtain ⟨s1, hstep, hrest⟩ := Option.bind_eq_some.mp h
    have ha := runStep_attempts p hstep
    have hb := ih s1 s2 hrest
    simp only [enqCount, List.countP_cons] at hb ⊢
    by_cases he : e = REv.enq <;> simp [he] at ha ⊢ <;> omega

/-! ## Claim C2 -/

/-- Claim C2 counterexample: one item, one thread; the producer
enqueues (attempts = 1), the worker's write fails (fail = 1) and it
still signals, the collector consumes the signal and `ReadMsg` errors
(fail = 2).  This interleaving of the code's transitions reaches
success + fail = 2 > 1 = attempts, refuting the claimed bound. -/
theorem counters_bounded_counterexample :
    runTrace { M := 1, T := 1 } [REv.enq, REv.write false, REv.read false] =
      some { attempts := 1, dequeued := 1, pendingSig := 0, iters := 1
           , success := 0, fail := 2, failWrite := 1, timedOut := false } ∧
    ¬ (({ attempts := 1, dequeued := 1, pendingSig := 0, iters := 1
        , success := 0, fail := 2, failWrite := 1, timedOut := false } : RunSt).success +
       ({ attempts := 1, dequeued := 1, pendingSig := 0, iters := 1
        , success := 0, fail := 2, failWrite := 1, timedOut := false } : RunSt).fail ≤
       ({ attempts := 1, dequeued := 1, pendingSig := 0, iters := 1
        , success := 0, fail := 2, failWrite := 1, timedOut := false } : RunSt).attempts) := by
  constructor
  · rfl
  · decide

/-- Claim C2 (amended): at every point of every run,
success + fail ≤ attempts + writeFailures — a failed write and the
read classification consuming its signal each increment `fail`, so the
claimed bound `attempts` holds only with `writeFailures = 0` added on
the right; and once the run has fully drained (`M` classifications,
producer done) with no timeout, success + fail = attempts +
writeFailures, which is the claimed equality exactly when every write
succeeded. -/
theorem counters_bounded_amended (p : RunParams) (evs : List REv) (s : RunSt)
    (h : runTrace p evs = some s) :
    s.success + s.fail ≤ s.attempts + s.failWrite ∧
    (s.iters = p.M → s.attempts = p.M →
      s.success + s.fail = s.attempts + s.failWrite) := by
  have hinv := runFrom_inv p evs initRun s h (by simp [RunInv, initRun])
  obtain ⟨h1, h2, h3, h4⟩ := hinv
  constructor
  · omega
  · intro hi ha
    omega

/-- Witness for the amended C2: a fully drained one-item run with a
successful write reaches equality (1 + 0 = 1 + 0). -/
theorem counters_bounded_witness :
    ({ attempts := 1, dequeued := 1, pendingSig := 0, iters := 1
     , success := 1, fail := 0, failWrite := 0, timedOut := false } : RunSt).success +
    ({ attempts := 1, dequeued := 1, pendingSig := 0, iters := 1
     , success := 1, fail := 0, failWrite := 0, timedOut := false } : RunSt).fail =
    ({ attempts := 1, dequeued := 1, pendingSig := 0, iters := 1
     , success := 1, fail := 0, failWrite := 0, timedOut := false } : RunSt).attempts +
    ({ attempts := 1, dequeued := 1, pendingSig := 0, iters := 1
     , success := 1, fail := 0, failWrite := 0, timedOut := false } : RunSt).failWrite :=
  (counters_bounded_amended { M := 1, T := 1 }
    [REv.enq, REv.write true, REv.read true]
    { attempts := 1, dequeued := 1, pendingSig := 0, iters := 1
    , success := 1, fail := 0, failWrite := 0, timedOut := false }
    (by decide)).2 rfl rfl

/-! ## Claim C5 -/

/-- Claim C5: for every thread count and batch size `M`, in any valid
interleaving `attempts` equals the number of enqueue transitions the
producer has performed — each item contributes exactly one increment —
and is therefore exactly `M` once the producer has enqueued all `M`
items. -/
theorem attempts_counts_enqueues (p : RunParams) (evs : List REv) (s : RunSt)
    (h : runTrace p evs = some s) :
    s.attempts = enqCount evs ∧ (enqCount evs = p.M → s.attempts = p.M) := by
  have ha := runFrom_attempts p evs initRun s h
  constructor
  · simpa [initRun] using ha
  · intro hm
    simp [initRun] at ha
    omega

/-- Witness for C5: with M = 2 and T = 1, after the producer's two
enqueues interleaved with a worker dequeue, attempts = 2 = M. -/
theorem attempts_counts_enqueues_witness :
    ({ attempts := 2, dequeued := 1, pendingSig := 1, iters := 0
     , success := 0, fail := 0, failWrite := 0, timedOut := false } : RunSt).attempts = 2 :=
  (attempts_counts_enqueues { M := 2, T := 1 }
    [REv.enq, REv.write true, REv.enq]
    { attempts := 2, dequeued := 1, pendingSig := 1, iters := 0
    , success := 0, fail := 0, failWrite := 0, timedOut := false }
    (by decide)).2 (by decide)

end DnsSubnetClient
